import Mathlib

/-!
Verification development for the layers-contract engine of the import-linter
repository (source file `src/importlinter/contracts/layers.py`).

The Python source is shallowly embedded: modules are dotted name strings,
the import graph is a structure of lists, stateful methods become state-passing
functions, and operations that raise Python exceptions return `Except PyExn`.
Operations of collaborator classes that are not part of the repository's
source file (`Module`, `ImportGraph`, `helpers`, `networkx`) are modelled from
the specification and are marked as such in their doc comments.
-/

deriving instance DecidableEq for Except

namespace ImportLinter

/-- Python exceptions that the embedded code can raise. `indexError` stands for
a failing subscript (Python `IndexError`, and also the `TypeError` raised when
subscripting `None` for an unset `containers` field); `typeError` for passing
an unhashable list where a module name string is expected; `noPath` for
`networkx.exception.NetworkXNoPath`; `nodeNotFound` for a path query on a
missing node; `valueError` for `ValueError` raised by the validators. -/
inductive PyExn where
  | indexError
  | typeError
  | noPath
  | nodeNotFound
  | valueError (msg : String)
deriving DecidableEq

/-- The single-quote character (code 39) as a string: the source's error
messages quote container and layer names with it. -/
def sq : String := ⟨[Char.ofNat 39]⟩

/-! ## Module names (modelled from the spec)

The spec's data model: a Module is a dotted hierarchical name, and
`is_descendant_of(other)` is true iff `self` equals `other` or `self` starts
with `other.`. -/

/-- Whether the character list `p` is a prefix of the character list of `s`
(Python `str.startswith`). -/
def strStartsWith (s p : String) : Bool := p.data.isPrefixOf s.data

/-- Whether the character list `p` is a suffix of the character list of `s`
(Python `str.endswith`). -/
def strEndsWith (s p : String) : Bool := p.data.isSuffixOf s.data

/-- Modelled from the spec: `Module.is_descendant_of` (class `Module` of
`importlinter.domain.imports` is not part of the given source file).
Spec section 3: true iff `self` equals `other` or `self` starts with
`other.`. -/
def isDescendantOf (self other : String) : Bool :=
  self == other || strStartsWith self (other ++ ".")

/-- Modelled from the spec: `Module.root_package_name` (not part of the given
source file).  A container is a project root package or a descendant of one
exactly when its first dotted component is a root package name, so the root
package name of a dotted module name is its first component. -/
def rootPackageName (m : String) : String :=
  ⟨m.data.takeWhile (fun ch => ch != '.')⟩

/-! ## The import graph (modelled from the spec, section 4.1)

Nodes are module name strings; an edge `importer -> imported` carries the list
of line numbers recording every place the import occurs.  `squashed` lists the
nodes flagged as synthetic squashed nodes. -/

/-- Modelled from the spec: the Import Graph of section 4.1 (class
`ImportGraph` of `importlinter.domain.ports.graph` is not part of the given
source file).  Each entry of `edges` is `(importer, imported, line_numbers)`;
the engine's operations keep at most one entry per `(importer, imported)`
pair. -/
structure ImportGraph where
  modules : List String
  squashed : List String
  edges : List (String × String × List Nat)
deriving DecidableEq

/-- Whether the graph has an edge `a -> b` (with any provenance). -/
def edgeIn (g : ImportGraph) (a b : String) : Bool :=
  g.edges.any (fun e => e.1 == a && e.2.1 == b)

/-- Modelled from the spec: `ImportGraph.get_import_details` returns the
provenance records of the edge `importer -> imported`, or empty if there is no
such edge.  A record is modelled by its line number. -/
def getImportDetails (g : ImportGraph) (importer imported : String) : List Nat :=
  match g.edges.find? (fun e => e.1 == importer && e.2.1 == imported) with
  | some e => e.2.2
  | none => []

/-- Modelled from the spec: `ImportGraph.find_modules_directly_imported_by`
returns the set of modules directly imported by `m` (unknown names yield the
empty set). -/
def findModulesDirectlyImportedBy (g : ImportGraph) (m : String) : List String :=
  ((g.edges.filter (fun e => e.1 == m)).map (fun e => e.2.1)).dedup

/-- Modelled from the spec: `ImportGraph.find_modules_that_directly_import`
returns the set of modules that directly import `m`. -/
def findModulesThatDirectlyImport (g : ImportGraph) (m : String) : List String :=
  ((g.edges.filter (fun e => e.2.1 == m)).map (fun e => e.1)).dedup

/-- Modelled from the spec: `ImportGraph.find_descendants` returns all nodes
strictly under `m` in the dotted hierarchy. -/
def findDescendants (g : ImportGraph) (m : String) : List String :=
  g.modules.filter (fun x => strStartsWith x (m ++ "."))

/-- Modelled from the spec: `ImportGraph.remove_module`; removal cascades,
deleting every edge where the node is importer or imported. -/
def removeModule (g : ImportGraph) (m : String) : ImportGraph :=
  { modules := g.modules.filter (fun x => x != m),
    squashed := g.squashed.filter (fun x => x != m),
    edges := g.edges.filter (fun e => e.1 != m && e.2.1 != m) }

/-- Modelled from the spec: `ImportGraph.add_module` (the `is_squashed` flag
marks synthetic nodes). -/
def addModule (g : ImportGraph) (m : String) (isSquashed : Bool) : ImportGraph :=
  { modules := if m ∈ g.modules then g.modules else g.modules ++ [m],
    squashed :=
      if isSquashed && !(g.squashed.contains m) then g.squashed ++ [m] else g.squashed,
    edges := g.edges }

/-- Modelled from the spec: `ImportGraph.add_import` appends to an existing
edge's line-number set or creates the edge; the backing graph also records the
two endpoints as nodes. -/
def addImport (g : ImportGraph) (importer imported : String) (line : Option Nat) :
    ImportGraph :=
  let withA := if importer ∈ g.modules then g.modules else g.modules ++ [importer]
  let withB := if imported ∈ withA then withA else withA ++ [imported]
  if edgeIn g importer imported then
    { g with
      modules := withB,
      edges := g.edges.map (fun e =>
        if e.1 == importer && e.2.1 == imported then (e.1, e.2.1, e.2.2 ++ line.toList)
        else e) }
  else
    { g with modules := withB, edges := g.edges ++ [(importer, imported, line.toList)] }

/-- Modelled from the spec: `ImportGraph.remove_import` as used by the ignore
filter; removes the edge (keeping the nodes). -/
def removeImport (g : ImportGraph) (importer imported : String) : ImportGraph :=
  { g with edges := g.edges.filter (fun e => !(e.1 == importer && e.2.1 == imported)) }

/-! ## The ignore filter (modelled from the spec, section 4.3) -/

/-- Modelled from the spec: `helpers.pop_imports` (module
`importlinter.domain.helpers` is not part of the given source file).  For each
`(importer, imported)` pair it captures the current provenance and removes the
edge; it returns the captured records and the filtered graph. -/
def popImports (g : ImportGraph) (pairs : List (String × String)) :
    List (String × String × List Nat) × ImportGraph :=
  pairs.foldl
    (fun acc pr =>
      (acc.1 ++ [(pr.1, pr.2, getImportDetails acc.2 pr.1 pr.2)],
        removeImport acc.2 pr.1 pr.2))
    ([], g)

/-! ## Layers, fields and the contract declaration (source lines 14-57) -/

/-- Source class `Layer` (lines 14-17). -/
structure Layer where
  name : String
  is_optional : Bool
deriving DecidableEq

/-- Source `LayerField.parse` (lines 20-29) restricted to string input (for a
string, `fields.StringField().parse` returns the string itself; field classes
are not part of the given source file).  Wrapping in parentheses marks the
layer optional; `raw_string[1:-1]` drops the first and last character. -/
def LayerField.parse (raw_string : String) : Layer :=
  if strStartsWith raw_string "(" && strEndsWith raw_string ")" then
    { name := ⟨(raw_string.data.drop 1).dropLast⟩, is_optional := true }
  else
    { name := raw_string, is_optional := false }

/-- The `LayersContract` declaration (source lines 52-57): ordered layers, the
optional container list (empty when not configured, in which case the Python
attribute is falsy) and the optional ignore list.  `root_packages` is the
ambient session option read by `_validate_containers` (source line 284). -/
structure LayersContract where
  layers : List Layer
  containers : List String
  ignore_imports : List (String × String)
  root_packages : List String
deriving DecidableEq

/-! ## Layer-pair enumeration (source lines 323-358) -/

/-- Source `_module_from_layer` (lines 353-358): join the container and layer
name with a dot when a truthy container is given (Python `if container:` is
false for both `None` and the empty string), else the layer name as-is. -/
def moduleFromLayer (layer : Layer) (container : Option String) : String :=
  match container with
  | some c => if c == "" then layer.name else c ++ "." ++ layer.name
  | none => layer.name

/-- Source line 335: `quasi_containers = self.containers or [None]` (an unset
or empty container list is falsy). -/
def quasiContainers (c : LayersContract) : List (Option String) :=
  match c.containers with
  | [] => [none]
  | l => l.map some

/-- The inner loops of source `_generate_module_permutations` (lines 337-351)
for one container: for each `higher` layer in declaration order, skip it
entirely if its resolved module is not in the graph, else pair it with each
later layer whose resolved module is in the graph. -/
def genPairsForContainer (g : ImportGraph) (cont : Option String) :
    List Layer → List (String × String)
  | [] => []
  | higher :: rest =>
    let hm := moduleFromLayer higher cont
    if hm ∈ g.modules then
      (rest.filterMap (fun lower =>
        let lm := moduleFromLayer lower cont
        if lm ∈ g.modules then some (hm, lm) else none))
        ++ genPairsForContainer g cont rest
    else genPairsForContainer g cont rest

/-- The outer loop of `_generate_module_permutations` over the quasi
containers. -/
def permutationsLoop (c : LayersContract) (g : ImportGraph) :
    List (Option String) → List (String × String)
  | [] => []
  | cont :: rest => genPairsForContainer g cont c.layers ++ permutationsLoop c g rest

/-- Source `_generate_module_permutations` (lines 323-351), as the list of
yielded `(higher module, lower module)` pairs. -/
def generateModulePermutations (c : LayersContract) (g : ImportGraph) :
    List (String × String) :=
  permutationsLoop c g (quasiContainers c)

/-! ## Squashing and pruning (source lines 126-155) -/

/-- Python `set.add`: add the element when not already present (set iteration
order is unspecified in Python; the embedding fixes insertion order, and every
claim below is insensitive to that order). -/
def setAdd (s : List String) (m : String) : List String :=
  if m ∈ s then s else s ++ [m]

/-- One collection loop of `_squash_package` (lines 134-140): add to the set
`s` every found module that is not a descendant of (or equal to) the
package. -/
def collectBoundary (pkg : String) (found : List String) (s : List String) :
    List String :=
  found.foldl (fun acc m => if isDescendantOf m pkg then acc else setAdd acc m) s

/-- One iteration of the removal loop of `_squash_package` (lines 134-141):
collect the boundary imports of one package member from the current graph,
then remove the member.  The state is
`(modules_that_import_package, modules_imported_by_package, graph)`. -/
def squashStep (pkg : String)
    (acc : List String × List String × ImportGraph) (pm : String) :
    List String × List String × ImportGraph :=
  let importedBy := collectBoundary pkg (findModulesDirectlyImportedBy acc.2.2 pm) acc.2.1
  let importers := collectBoundary pkg (findModulesThatDirectlyImport acc.2.2 pm) acc.1
  (importers, importedBy, removeModule acc.2.2 pm)

/-- Source `_squash_package` (lines 126-150): remove the package root and all
its descendants while recording the boundary-crossing neighbours, re-add a
single squashed node, and re-attach one edge per recorded neighbour.  The
re-attached edges are created by `add_import` without a line number. -/
def squashPackage (packageName : String) (g : ImportGraph) : ImportGraph :=
  let packageModules := packageName :: findDescendants g packageName
  let res := packageModules.foldl (squashStep packageName) ([], [], g)
  let g1 := addModule res.2.2 packageName true
  let g2 := res.1.foldl (fun h m => addImport h m packageName none) g1
  res.2.1.foldl (fun h m => addImport h packageName m none) g2

/-- Source `_remove_package` (lines 152-155): remove the package root and all
its descendants (the member set is computed before any removal). -/
def removePackage (packageName : String) (g : ImportGraph) : ImportGraph :=
  (packageName :: findDescendants g packageName).foldl removeModule g

/-- The pruning loop of `check` (source lines 80-84): for every declared
layer, resolve it against `self.containers[0]` and remove its subtree when it
is neither of the two pair modules.  Subscripting the unset or empty container
list raises (Python `TypeError` on `None`, `IndexError` on `[]`), modelled as
`indexError`. -/
def pruneOtherLayers (c : LayersContract) (higher lower : String) :
    List Layer → ImportGraph → Except PyExn ImportGraph
  | [], g => .ok g
  | layer :: rest, g =>
    match c.containers with
    | [] => .error PyExn.indexError
    | c0 :: _ =>
      let m := moduleFromLayer layer (some c0)
      if m != higher && m != lower then
        pruneOtherLayers c higher lower rest (removePackage m g)
      else
        pruneOtherLayers c higher lower rest g

/-- The per-pair preparation of the disposable clone in `check` (source lines
77-84): deep-copy the graph (implicit in the pure embedding), squash the lower
then the higher layer package, then prune the other layers. -/
def buildPairTemp (c : LayersContract) (higher lower : String) (g : ImportGraph) :
    Except PyExn ImportGraph :=
  pruneOtherLayers c higher lower c.layers (squashPackage higher (squashPackage lower g))

/-! ## All shortest paths (modelled from the spec, section 4.1) -/

/-- All simple paths from the current node to `t`, with `visited` the reversed
list of already visited nodes (excluding the current one) and structural fuel
bounding the path length. -/
def simplePathsAux (g : ImportGraph) (t : String) :
    Nat → String → List String → List (List String)
  | 0, _, _ => []
  | Nat.succ fuel, cur, visited =>
    if cur == t then [(cur :: visited).reverse]
    else
      (findModulesDirectlyImportedBy g cur).foldr
        (fun v acc =>
          (if v ∈ cur :: visited then [] else simplePathsAux g t fuel v (cur :: visited))
            ++ acc)
        []

/-- Modelled from the spec: `networkx.all_shortest_paths` on the backing
directed graph, i.e. the spec's `find_shortest_chains`: all paths of minimum
edge-length from `s` to `t` (ties: all minimum-length paths), raising
`NetworkXNoPath` when `t` is unreachable and a node-not-found error when an
endpoint is missing.  Every shortest path is a simple path and no walk is
shorter than the shortest simple path, so the minimum-length simple paths are
exactly the shortest paths. -/
def allShortestPaths (g : ImportGraph) (s t : String) :
    Except PyExn (List (List String)) :=
  if s ∈ g.modules && t ∈ g.modules then
    let ps := simplePathsAux g t (g.modules.length + 1) s []
    match ps with
    | [] => .error PyExn.noPath
    | p :: rest =>
      let minLen := (rest.map List.length).foldl Nat.min p.length
      .ok (ps.filter (fun q => q.length == minLen))
  else .error PyExn.nodeNotFound

/-! ## Chain reconstruction (source lines 157-208) -/

/-- One record of a reported chain: `{importer, imported, line_numbers}`
(source lines 203-205). -/
structure ChainRecord where
  importer : String
  imported : String
  line_numbers : List Nat
deriving DecidableEq

/-- Source `_convert_chains` inner loop (lines 198-206): one record per
consecutive pair of the chain, with the line numbers pulled from
`get_import_details` on the given graph. -/
def convertChain (g : ImportGraph) (chain : List String) : List ChainRecord :=
  (chain.zip chain.tail).map (fun pr =>
    { importer := pr.1, imported := pr.2,
      line_numbers := getImportDetails g pr.1 pr.2 })

/-- Source `_convert_chains` (lines 195-208). -/
def convertChains (chains : List (List String)) (g : ImportGraph) :
    List (List ChainRecord) :=
  chains.map (convertChain g)

/-- Python subscript `l[i]` for a non-negative index `i`. -/
def pyIndexNat (l : List String) (i : Nat) : Except PyExn String :=
  match l.get? i with
  | some x => .ok x
  | none => .error PyExn.indexError

/-- Python subscript `l[-k]` for a negative index (`k` at least 1). -/
def pyIndexNeg (l : List String) (k : Nat) : Except PyExn String :=
  if k ≤ l.length then
    match l.get? (l.length - k) with
    | some x => .ok x
    | none => .error PyExn.indexError
  else .error PyExn.indexError

/-- The first reconstruction loop of `_determine_specific_chains` (source
lines 185-188): one concrete chain per starting module, ending at
`ending_modules[0]` (subscripted anew on every iteration, raising when the
ending set is empty). -/
def chainsForStarting (endingModules mid : List String) :
    List String → List (List String) → Except PyExn (List (List String))
  | [], acc => .ok acc
  | sm :: rest, acc =>
    match pyIndexNat endingModules 0 with
    | .error e => .error e
    | .ok e0 => chainsForStarting endingModules mid rest (acc ++ [sm :: (mid ++ [e0])])

/-- The second reconstruction loop of `_determine_specific_chains` (source
lines 189-192): one concrete chain per remaining ending module, starting at
`starting_modules[0]`. -/
def chainsForEnding (startingModules mid : List String) :
    List String → List (List String) → Except PyExn (List (List String))
  | [], acc => .ok acc
  | em :: rest, acc =>
    match pyIndexNat startingModules 0 with
    | .error e => .error e
    | .ok s0 => chainsForEnding startingModules mid rest (acc ++ [s0 :: (mid ++ [em])])

/-- The main loop of `_determine_specific_chains` (source lines 161-192) at
the function's own declared input type (a list of coarse chains, each a node
sequence).  A two-node chain is appended as-is (lines 162-164); a longer chain
is expanded through its starting and ending modules, where `chain[1:-1]` is
the middle segment. -/
def specificChainsLoop (g : ImportGraph) :
    List (List String) → List (List String) → Except PyExn (List (List String))
  | [], acc => .ok acc
  | chain :: rest, acc =>
    if chain.length == 2 then specificChainsLoop g rest (acc ++ [chain])
    else
      match pyIndexNat chain 0 with
      | .error e => .error e
      | .ok startingPackage =>
        match pyIndexNat chain 1 with
        | .error e => .error e
        | .ok second =>
          let startingModules :=
            (findModulesThatDirectlyImport g second).filter
              (fun m => isDescendantOf m startingPackage)
          match pyIndexNeg chain 1 with
          | .error e => .error e
          | .ok endingPackage =>
            match pyIndexNeg chain 2 with
            | .error e => .error e
            | .ok secondLast =>
              let endingModules :=
                (findModulesDirectlyImportedBy g secondLast).filter
                  (fun m => isDescendantOf m endingPackage)
              let mid := (chain.drop 1).dropLast
              match chainsForStarting endingModules mid startingModules acc with
              | .error e => .error e
              | .ok acc1 =>
                match chainsForEnding startingModules mid (endingModules.drop 1) acc1 with
                | .error e => .error e
                | .ok acc2 => specificChainsLoop g rest acc2

/-- Source `_determine_specific_chains` (lines 157-193) at its declared input
type, followed by `_convert_chains` on the same graph. -/
def determineSpecificChains (chains : List (List String)) (g : ImportGraph) :
    Except PyExn (List (List ChainRecord)) :=
  match specificChainsLoop g chains [] with
  | .error e => .error e
  | .ok invalidChains => .ok (convertChains invalidChains g)

/-! ## `_determine_specific_chains` as `check` actually calls it

`check` appends the whole list returned by `networkx.all_shortest_paths` as a
single element of `high_level_invalid_chains` (source line 100), so the
argument reaching `_determine_specific_chains` is a list whose elements are
themselves lists of paths, not node sequences.  The loop body then runs with a
path list in place of a chain: `len == 2` counts paths; `chain[1]` is a path
list, and passing it to `find_modules_that_directly_import` raises `TypeError`
(an unhashable list used as a dictionary key in the backing graph, whose
queries are defined on module name strings); a two-element group survives to
`_convert_chains`, whose `get_import_details` call on path lists raises
`TypeError` as well. -/

/-- The collection phase of `_determine_specific_chains` on the mis-nested
argument `check` passes (each element a list of coarse paths): an element of
exactly two paths is appended (lines 162-164); any other element raises
(`chain[0]` or `chain[1]` raises `IndexError` for fewer than two paths, and a
path list passed to `find_modules_that_directly_import` raises `TypeError`
for more). -/
def specificChainsGroups :
    List (List (List String)) → Except PyExn (List (List (List String)))
  | [] => .ok []
  | e :: rest =>
    if e.length == 2 then
      match specificChainsGroups rest with
      | .error ex => .error ex
      | .ok tail => .ok (e :: tail)
    else
      match e with
      | [] => .error PyExn.indexError
      | [_] => .error PyExn.indexError
      | _ => .error PyExn.typeError

/-- `_convert_chains` on the surviving two-path groups: the consecutive-pair
loop calls `get_import_details` with path lists as keys, raising `TypeError`
on the first group (source lines 200-201); with no group it returns the empty
chain list. -/
def convertChainsGroups (groups : List (List (List String))) :
    Except PyExn (List (List ChainRecord)) :=
  match groups with
  | [] => .ok []
  | _ :: _ => .error PyExn.typeError

/-- Source `_determine_specific_chains` (lines 157-193) at the type of the
argument `check` builds at line 100. -/
def determineSpecificChainsFromCheck (nested : List (List (List String)))
    (_g : ImportGraph) : Except PyExn (List (List ChainRecord)) :=
  match specificChainsGroups nested with
  | .error e => .error e
  | .ok groups => convertChainsGroups groups

/-! ## The check itself (source lines 59-111) -/

/-- Source `ContractCheck` result value: `kept` and the
`invalid_chains` metadata. -/
structure ContractCheck where
  kept : Bool
  invalid_chains : List (List ChainRecord)
deriving DecidableEq

/-- The pair loop of `check` (source lines 76-100): per yielded pair, build
the disposable clone, query all shortest paths from the lower to the higher
squashed node (catching only `NetworkXNoPath`, source lines 86-95), and on a
non-empty result clear `is_kept` and append the whole path list. -/
def checkLoop (c : LayersContract) (g1 : ImportGraph) :
    List (String × String) → Bool → List (List (List String)) →
    Except PyExn (Bool × List (List (List String)))
  | [], kept, acc => .ok (kept, acc)
  | (higher, lower) :: rest, kept, acc =>
    match buildPairTemp c higher lower g1 with
    | .error e => .error e
    | .ok temp =>
      match allShortestPaths temp lower higher with
      | .error PyExn.noPath => checkLoop c g1 rest kept acc
      | .error e => .error e
      | .ok layerChainData =>
        match layerChainData with
        | [] => checkLoop c g1 rest kept acc
        | _ => checkLoop c g1 rest false (acc ++ [layerChainData])

/-- Source `LayersContract.check` (lines 59-111).  The ignored imports are
popped (lines 62-65) and never re-added on any path; the debug prints, the
`_call_count` attribute and the interactive debugger breakpoint left at line
107 (whose behaviour depends on the environment, not on the input values) have
no effect on the computed value and are not modelled.  The returned pair is
the check result together with the caller-visible graph after the call. -/
def check (c : LayersContract) (g : ImportGraph) :
    Except PyExn (ContractCheck × ImportGraph) :=
  let popped := popImports g c.ignore_imports
  let g1 := popped.2
  match checkLoop c g1 (generateModulePermutations c g1) true [] with
  | .error e => .error e
  | .ok res =>
    match determineSpecificChainsFromCheck res.2 g1 with
    | .error e => .error e
    | .ok invalidChains => .ok ({ kept := res.1, invalid_chains := invalidChains }, g1)

/-! ## The validators (source lines 283-321), called only by `_alt_check` -/

/-- Source `_check_all_layers_exist_for_container` (lines 303-312): a
non-optional layer whose joined module name is missing from the graph raises
`ValueError` naming the missing module. -/
def checkAllLayersExistForContainer (g : ImportGraph) (container : String) :
    List Layer → Except PyExn Unit
  | [] => .ok ()
  | layer :: rest =>
    if layer.is_optional then checkAllLayersExistForContainer g container rest
    else
      let layerModuleName := container ++ "." ++ layer.name
      if layerModuleName ∈ g.modules then
        checkAllLayersExistForContainer g container rest
      else
        .error (PyExn.valueError
          ("Missing layer in container " ++ sq ++ container ++ sq ++ ": module "
            ++ layerModuleName ++ " does not exist."))

/-- The error message of `_validate_containers` (source lines 287-299). -/
def invalidContainerMessage (c : LayersContract) (container : String) : String :=
  if c.root_packages.length == 1 then
    let rootPackage := c.root_packages.headD ""
    "Invalid container " ++ sq ++ container ++ sq ++ ": a container must either be a "
      ++ "subpackage of " ++ rootPackage ++ ", or " ++ rootPackage ++ " itself."
  else
    "Invalid container " ++ sq ++ container ++ sq ++ ": a container must either be a root "
      ++ "package, or a subpackage of one of them. "
      ++ "(The root packages are: " ++ String.intercalate ", " c.root_packages ++ ".)"

/-- Source `_validate_containers` (lines 283-301): each container whose root
package name is not a session root package raises `ValueError`; valid
containers are then checked for missing layers. -/
def validateContainers (c : LayersContract) (g : ImportGraph) :
    List String → Except PyExn Unit
  | [] => .ok ()
  | container :: rest =>
    if rootPackageName container ∈ c.root_packages then
      match checkAllLayersExistForContainer g container c.layers with
      | .error e => .error e
      | .ok _ => validateContainers c g rest
    else .error (PyExn.valueError (invalidContainerMessage c container))

/-- Source `_check_all_containerless_layers_exist` (lines 314-321). -/
def checkAllContainerlessLayersExist (g : ImportGraph) :
    List Layer → Except PyExn Unit
  | [] => .ok ()
  | layer :: rest =>
    if layer.is_optional then checkAllContainerlessLayersExist g rest
    else if layer.name ∈ g.modules then checkAllContainerlessLayersExist g rest
    else
      .error (PyExn.valueError
        ("Missing layer " ++ sq ++ layer.name ++ sq ++ ": module " ++ layer.name
          ++ " does not exist."))

/-! ## Spec-shaped layer-pair enumeration (for claim C6)

The claim's formulation: for every container (one containerless pass if none
configured) and for every ordered pair of layer indices `(i, j)` with `i < j`
in the declared list, yield the resolved pair, skipping exactly those pairs in
which either resolved module is absent from the graph. -/

/-- All ordered pairs `(layers[i], layers[j])` with `i < j`. -/
def allLayerPairs : List Layer → List (Layer × Layer)
  | [] => []
  | h :: rest => rest.map (fun l => (h, l)) ++ allLayerPairs rest

/-- The claim-shaped pair list for one container: every `i < j` pair, kept
exactly when both resolved modules are present in the graph. -/
def specPairsForContainer (g : ImportGraph) (cont : Option String) (ls : List Layer) :
    List (String × String) :=
  (allLayerPairs ls).filterMap (fun p =>
    if moduleFromLayer p.1 cont ∈ g.modules && moduleFromLayer p.2 cont ∈ g.modules then
      some (moduleFromLayer p.1 cont, moduleFromLayer p.2 cont)
    else none)

/-- The claim-shaped enumerator over all quasi containers. -/
def specModulePermutations (c : LayersContract) (g : ImportGraph) :
    List (String × String) :=
  (quasiContainers c).foldr (fun cont acc => specPairsForContainer g cont c.layers ++ acc) []

theorem genPairs_eq_spec (g : ImportGraph) (cont : Option String) :
    ∀ ls : List Layer, genPairsForContainer g cont ls = specPairsForContainer g cont ls := by
  intro ls
  induction ls with
  | nil => rfl
  | cons h rest ih =>
    by_cases hm : moduleFromLayer h cont ∈ g.modules
    · simp only [genPairsForContainer, specPairsForContainer, allLayerPairs, hm, if_true,
        List.filterMap_append, List.filterMap_map]
      rw [show (specPairsForContainer g cont rest = List.filterMap _ (allLayerPairs rest))
        from rfl] at ih
      rw [← ih]
      congr 1
      apply List.filterMap_congr
      intro lower _
      simp [Function.comp, hm]
    · simp only [genPairsForContainer, specPairsForContainer, allLayerPairs, hm, if_false,
        List.filterMap_append, List.filterMap_map]
      rw [show (specPairsForContainer g cont rest = List.filterMap _ (allLayerPairs rest))
        from rfl] at ih
      rw [← ih]
      have hnil : List.filterMap
          ((fun p => if moduleFromLayer p.1 cont ∈ g.modules &&
              moduleFromLayer p.2 cont ∈ g.modules then
              some (moduleFromLayer p.1 cont, moduleFromLayer p.2 cont) else none)
            ∘ (fun l => (h, l))) rest = [] := by
        apply List.filterMap_eq_nil_iff.mpr
        intro lower _
        simp [Function.comp, hm]
      rw [hnil, List.nil_append]

/-- Claim C6: the layer-pair enumerator yields, for every container (a single
containerless pass if no containers are configured) and for every ordered pair
of layer indices `(i, j)` with `i < j` in the declared list — not only
adjacent indices — the pair of resolved modules, and skips exactly those pairs
in which either resolved module is absent from the graph (in particular, an
absent optional layer contributes no pairs). -/
theorem generateModulePermutations_eq_spec (c : LayersContract) (g : ImportGraph) :
    generateModulePermutations c g = specModulePermutations c g := by
  unfold generateModulePermutations specModulePermutations
  induction quasiContainers c with
  | nil => rfl
  | cons cont rest ih =>
    simp only [permutationsLoop, List.foldr_cons, ih, genPairs_eq_spec]

/-- Claim C10: `LayerField.parse` returns an optional layer named by the inner
substring exactly when the string both starts with an opening and ends with a
closing parenthesis; every other string parses to a non-optional layer with
the name unchanged. -/
theorem layerField_parse_spec (s : String) :
    ((LayerField.parse s).is_optional = true ↔
      ((∃ t, s.data = Char.ofNat 40 :: t) ∧ (∃ u, s.data = u ++ [Char.ofNat 41]))) ∧
    ((LayerField.parse s).is_optional = true →
      (LayerField.parse s).name.data = (s.data.drop 1).dropLast) ∧
    ((LayerField.parse s).is_optional = false → (LayerField.parse s).name = s) := by
  have hopen : ("(" : String).data = [Char.ofNat 40] := rfl
  have hclose : (")" : String).data = [Char.ofNat 41] := rfl
  have hcond : (strStartsWith s "(" && strEndsWith s ")") = true ↔
      ((∃ t, s.data = Char.ofNat 40 :: t) ∧ (∃ u, s.data = u ++ [Char.ofNat 41])) := by
    rw [Bool.and_eq_true]
    unfold strStartsWith strEndsWith
    rw [hopen, hclose, List.isPrefixOf_iff_prefix, List.isSuffixOf_iff_suffix]
    constructor
    · rintro ⟨⟨t, ht⟩, ⟨u, hu⟩⟩
      exact ⟨⟨t, ht.symm⟩, ⟨u, hu.symm⟩⟩
    · rintro ⟨⟨t, ht⟩, ⟨u, hu⟩⟩
      exact ⟨⟨t, ht.symm⟩, ⟨u, hu.symm⟩⟩
  by_cases h : (strStartsWith s "(" && strEndsWith s ")") = true
  · refine ⟨?_, ?_, ?_⟩
    · rw [← hcond]
      exact ⟨fun _ => h, fun _ => by simp [LayerField.parse, h]⟩
    · intro _
      simp [LayerField.parse, h]
    · intro hfalse
      simp [LayerField.parse, h] at hfalse
  · rw [Bool.not_eq_true] at h
    refine ⟨?_, ?_, ?_⟩
    · rw [← hcond]
      constructor
      · intro hfalse; simp [LayerField.parse, h] at hfalse
      · intro hcontra; rw [hcontra] at h; cases h
    · intro hopt
      simp [LayerField.parse, h] at hopt
    · intro _
      simp [LayerField.parse, h]

/-! ## Concrete scenarios for the claims about `check`

The graphs and declarations below are the scenarios named in the claims (and
in the spec's Testable Properties). -/

/-- Layers `[high, low]`, no containers, nothing ignored (claim C2). -/
def containerlessContract : LayersContract :=
  { layers := [{ name := "high", is_optional := false },
               { name := "low", is_optional := false }],
    containers := [], ignore_imports := [], root_packages := [] }

/-- The graph whose only edge is `low.b -> high.a` recorded at line 10
(claim C2). -/
def directViolationGraph : ImportGraph :=
  { modules := ["high", "high.a", "low", "low.b"], squashed := [],
    edges := [("low.b", "high.a", [10])] }

/-- Layers `[high, low]` under the single container `c`, ignoring the edge
`c.low.b -> c.high.a` (claim C1). -/
def ignoreContract : LayersContract :=
  { layers := [{ name := "high", is_optional := false },
               { name := "low", is_optional := false }],
    containers := ["c"], ignore_imports := [("c.low.b", "c.high.a")],
    root_packages := ["c"] }

/-- Layers `[high, low]` under the single container `c`, nothing ignored
(claim C7). -/
def containerContract : LayersContract :=
  { layers := [{ name := "high", is_optional := false },
               { name := "low", is_optional := false }],
    containers := ["c"], ignore_imports := [], root_packages := ["c"] }

/-- The container variant of the direct-violation graph: its only edge is
`c.low.b -> c.high.a` recorded at line 10 (claims C1 and C7). -/
def containerViolationGraph : ImportGraph :=
  { modules := ["c", "c.high", "c.high.a", "c.low", "c.low.b"], squashed := [],
    edges := [("c.low.b", "c.high.a", [10])] }

/-- Claim C1: on every exit path of `check` the caller's graph must contain
every ignored edge again with its original provenance.  The code pops the
ignored imports (source lines 62-65) and never re-adds them: on the scenario
below `check` returns normally (`kept = true`, no chains) and the returned
caller-visible graph answers `get_import_details` for the ignored pair with
the empty record list, while the graph before the check recorded line 10.
(The restore step `helpers.add_imports` exists only in the abandoned
`_alt_check`, source line 240, which `check` never calls.) -/
theorem check_does_not_restore_ignored_imports :
    (check ignoreContract containerViolationGraph).map
        (fun r => (r.1.kept, r.1.invalid_chains,
          getImportDetails r.2 "c.low.b" "c.high.a"))
      = Except.ok (true, [], []) ∧
    getImportDetails containerViolationGraph "c.low.b" "c.high.a" = [10] := by
  constructor
  · rfl
  · rfl

/-- Claim C2: for layers `[high, low]`, no containers, and the graph whose
only edge is `low.b -> high.a` at line 10, the claim says `check` returns
`kept = false` with the single record chain.  Instead the pair loop reaches
the pruning step, which subscripts the unset container list
(`self.containers[0]`, source line 82) and raises — `check` returns no result
at all. -/
theorem check_containerless_direct_violation_raises :
    check containerlessContract directViolationGraph = Except.error PyExn.indexError := by
  rfl

/-- Claim C7: every record of every chain returned by `check` must name a real
edge of the original, unfiltered-restored graph.  On the direct-violation
scenario under a container, the coarse analysis finds the one-path list
`[[c.low, c.high]]` and appends the whole list (source line 100), so
`_determine_specific_chains` sees a one-element group and its `chain[1]`
subscript raises `IndexError`: whenever a violation exists, `check` raises
instead of returning chains (and the popped ignored imports are never
restored, so no returned record could be checked against a restored graph). -/
theorem check_raises_instead_of_returning_chains :
    check containerContract containerViolationGraph = Except.error PyExn.indexError := by
  rfl

/-- Three layers `[high, mid, low]` repeated under containers `c1` and `c2`
(claim C4). -/
def twoContainerContract : LayersContract :=
  { layers := [{ name := "high", is_optional := false },
               { name := "mid", is_optional := false },
               { name := "low", is_optional := false }],
    containers := ["c1", "c2"], ignore_imports := [],
    root_packages := ["c1", "c2"] }

/-- The two-container graph with every layer module present (claim C4). -/
def twoContainerGraph : ImportGraph :=
  { modules := ["c1", "c1.high", "c1.mid", "c1.low",
                "c2", "c2.high", "c2.mid", "c2.low"],
    squashed := [], edges := [] }

/-- Claim C4: the prune step must remove every other configured layer's
subtree for every configured container (and work in the containerless case),
leaving only the two squashed pair nodes and modules outside all configured
layers.  The code resolves the layers to prune only against
`self.containers[0]` (source line 82): for the yielded pair
`(c2.high, c2.low)` the clone keeps the other layer `c2.mid` (only the `c1`
layers are removed), and in the containerless case the same subscript raises
instead of pruning. -/
theorem prune_misses_other_containers_and_raises_containerless :
    (("c2.high", "c2.low") ∈ generateModulePermutations twoContainerContract twoContainerGraph) ∧
    ((buildPairTemp twoContainerContract "c2.high" "c2.low" twoContainerGraph).map
        (fun t => (t.modules.contains "c2.mid", t.modules.contains "c1.mid"))
      = Except.ok (true, false)) ∧
    (buildPairTemp containerlessContract "high" "low"
        { modules := ["high", "low"], squashed := [], edges := [] }
      = Except.error PyExn.indexError) := by
  refine ⟨by decide, rfl, rfl⟩

/-- The invalid-container declaration: container `bogus` while the only
project root package is `proj` (claim C5). -/
def bogusContainerContract : LayersContract :=
  { layers := [{ name := "high", is_optional := false },
               { name := "low", is_optional := false }],
    containers := ["bogus"], ignore_imports := [], root_packages := ["proj"] }

/-- A graph of the `proj` root package without any `bogus` modules
(claim C5). -/
def projGraph : ImportGraph :=
  { modules := ["proj", "proj.high", "proj.low"], squashed := [], edges := [] }

/-- A valid containerless declaration whose two layer modules both exist
(claim C5). -/
def validContainerlessContract : LayersContract :=
  { layers := [{ name := "high", is_optional := false },
               { name := "low", is_optional := false }],
    containers := [], ignore_imports := [], root_packages := ["high", "low"] }

/-- The graph holding exactly the two containerless layer modules
(claim C5). -/
def twoLayerGraph : ImportGraph :=
  { modules := ["high", "low"], squashed := [], edges := [] }

/-- Claim C5: `check` must raise a configuration error before any graph walk
for an invalid container or a missing non-optional layer module, and raise no
such error when the declaration is valid.  `check` (source lines 59-111)
never calls `_validate_containers` or
`_check_all_containerless_layers_exist` — only the abandoned `_alt_check`
does (source lines 219-222): with the invalid container `bogus` it returns a
normal `kept = true` result while the validator would raise the configuration
error naming the container; and on a fully valid containerless declaration it
raises the unrelated container-subscript error even though the containerless
validator succeeds. -/
theorem check_skips_configuration_validation :
    (check bogusContainerContract projGraph).map (fun r => (r.1.kept, r.1.invalid_chains))
      = Except.ok (true, []) ∧
    validateContainers bogusContainerContract projGraph bogusContainerContract.containers
      = Except.error (PyExn.valueError (invalidContainerMessage bogusContainerContract "bogus")) ∧
    check validContainerlessContract twoLayerGraph = Except.error PyExn.indexError ∧
    checkAllContainerlessLayersExist twoLayerGraph validContainerlessContract.layers
      = Except.ok () := by
  exact ⟨rfl, by decide, rfl, rfl⟩

/-! ## Chain reconstruction counting (claims C8 and C9) -/

theorem pyIndexNat_zero_ok {l : List String} {x : String}
    (h : pyIndexNat l 0 = Except.ok x) : 0 < l.length := by
  unfold pyIndexNat at h
  cases hl : l.get? 0 with
  | none => rw [hl] at h; cases h
  | some y =>
    cases l with
    | nil => cases hl
    | cons a rest => simp

theorem chainsForStarting_ok {endingModules : List String} {e0 : String}
    (mid : List String) (he0 : pyIndexNat endingModules 0 = Except.ok e0) :
    ∀ (startingModules : List String) (acc : List (List String)),
      chainsForStarting endingModules mid startingModules acc
        = Except.ok (acc ++ startingModules.map (fun sm => sm :: (mid ++ [e0]))) := by
  intro startingModules
  induction startingModules with
  | nil => intro acc; simp [chainsForStarting]
  | cons sm rest ih =>
    intro acc
    simp only [chainsForStarting, he0, ih, List.map_cons]
    simp [List.append_assoc]

theorem chainsForEnding_ok {startingModules : List String} {s0 : String}
    (mid : List String) (hs0 : pyIndexNat startingModules 0 = Except.ok s0) :
    ∀ (ems : List String) (acc : List (List String)),
      chainsForEnding startingModules mid ems acc
        = Except.ok (acc ++ ems.map (fun em => s0 :: (mid ++ [em]))) := by
  intro ems
  induction ems with
  | nil => intro acc; simp [chainsForEnding]
  | cons em rest ih =>
    intro acc
    simp only [chainsForEnding, hs0, ih, List.map_cons]
    simp [List.append_assoc]

theorem chainsForStarting_empty_err (mid : List String) (sm : String)
    (rest : List String) (acc : List (List String)) :
    chainsForStarting [] mid (sm :: rest) acc = Except.error PyExn.indexError := rfl

theorem chainsForEnding_empty_err (mid : List String) (em : String)
    (rest : List String) (acc : List (List String)) :
    chainsForEnding [] mid (em :: rest) acc = Except.error PyExn.indexError := rfl

/-- The starting-module set of a coarse chain: real modules directly
importing the second node of the chain that are descendants of its first node
(source lines 168-175). -/
def startingMods (g : ImportGraph) (startingPackage second : String) : List String :=
  (findModulesThatDirectlyImport g second).filter
    (fun m => isDescendantOf m startingPackage)

/-- The ending-module set of a coarse chain: real modules directly imported by
the chain's second-to-last node and descendants of its last node (source lines
176-184). -/
def endingMods (g : ImportGraph) (endingPackage secondLast : String) : List String :=
  (findModulesDirectlyImportedBy g secondLast).filter
    (fun m => isDescendantOf m endingPackage)

theorem specificChainsLoop_long_chain (g : ImportGraph) (chain : List String)
    (rest acc : List (List String)) (sp n1 ep n2 : String)
    (hlen : (chain.length == 2) = false)
    (h0 : pyIndexNat chain 0 = Except.ok sp)
    (h1 : pyIndexNat chain 1 = Except.ok n1)
    (hm1 : pyIndexNeg chain 1 = Except.ok ep)
    (hm2 : pyIndexNeg chain 2 = Except.ok n2) :
    specificChainsLoop g (chain :: rest) acc =
      match chainsForStarting (endingMods g ep n2) ((chain.drop 1).dropLast)
          (startingMods g sp n1) acc with
      | .error e => .error e
      | .ok acc1 =>
        match chainsForEnding (startingMods g sp n1) ((chain.drop 1).dropLast)
            ((endingMods g ep n2).drop 1) acc1 with
        | .error e => .error e
        | .ok acc2 => specificChainsLoop g rest acc2 := by
  rw [show specificChainsLoop g (chain :: rest) acc =
    (if (chain.length == 2) = true then specificChainsLoop g rest (acc ++ [chain])
     else
      match pyIndexNat chain 0 with
      | .error e => .error e
      | .ok startingPackage =>
        match pyIndexNat chain 1 with
        | .error e => .error e
        | .ok second =>
          match pyIndexNeg chain 1 with
          | .error e => .error e
          | .ok endingPackage =>
            match pyIndexNeg chain 2 with
            | .error e => .error e
            | .ok secondLast =>
              match chainsForStarting
                  ((findModulesDirectlyImportedBy g secondLast).filter
                    (fun m => isDescendantOf m endingPackage))
                  ((chain.drop 1).dropLast)
                  ((findModulesThatDirectlyImport g second).filter
                    (fun m => isDescendantOf m startingPackage)) acc with
              | .error e => .error e
              | .ok acc1 =>
                match chainsForEnding
                    ((findModulesThatDirectlyImport g second).filter
                      (fun m => isDescendantOf m startingPackage))
                    ((chain.drop 1).dropLast)
                    (((findModulesDirectlyImportedBy g secondLast).filter
                      (fun m => isDescendantOf m endingPackage)).drop 1) acc1 with
                | .error e => .error e
                | .ok acc2 => specificChainsLoop g rest acc2) from rfl]
  rw [hlen, h0, h1, hm1, hm2]
  simp only [Bool.false_eq_true, if_false, startingMods, endingMods]

/-- Claim C8: for a coarse chain of more than two nodes with starting-module
set `S` and ending-module set `E` (both non-empty, witnessed by their first
elements), reconstruction emits exactly `|S| + |E| - 1` concrete chains: one
per starting module paired with the first ending module, plus one per
remaining ending module paired with the first starting module, the middle
segment `chain[1:-1]` held fixed — the cross product `S × E` is not
materialized. -/
theorem determine_specific_chains_counts (g : ImportGraph) (chain : List String)
    (sp n1 ep n2 s0 e0 : String)
    (hlen : 2 < chain.length)
    (h0 : pyIndexNat chain 0 = Except.ok sp)
    (h1 : pyIndexNat chain 1 = Except.ok n1)
    (hm1 : pyIndexNeg chain 1 = Except.ok ep)
    (hm2 : pyIndexNeg chain 2 = Except.ok n2)
    (hs0 : pyIndexNat (startingMods g sp n1) 0 = Except.ok s0)
    (he0 : pyIndexNat (endingMods g ep n2) 0 = Except.ok e0) :
    determineSpecificChains [chain] g =
      Except.ok (convertChains
        ((startingMods g sp n1).map
            (fun sm => sm :: ((chain.drop 1).dropLast ++ [e0])) ++
          ((endingMods g ep n2).drop 1).map
            (fun em => s0 :: ((chain.drop 1).dropLast ++ [em]))) g) ∧
    (convertChains
        ((startingMods g sp n1).map
            (fun sm => sm :: ((chain.drop 1).dropLast ++ [e0])) ++
          ((endingMods g ep n2).drop 1).map
            (fun em => s0 :: ((chain.drop 1).dropLast ++ [em]))) g).length
      = (startingMods g sp n1).length + (endingMods g ep n2).length - 1 := by
  have hne : (chain.length == 2) = false := by
    simp only [beq_eq_false_iff_ne, ne_eq]
    omega
  constructor
  · unfold determineSpecificChains
    rw [specificChainsLoop_long_chain g chain [] [] sp n1 ep n2 hne h0 h1 hm1 hm2]
    simp only [chainsForStarting_ok ((chain.drop 1).dropLast) he0,
      chainsForEnding_ok ((chain.drop 1).dropLast) hs0, specificChainsLoop,
      List.nil_append]
  · have hEpos : 0 < (endingMods g ep n2).length := pyIndexNat_zero_ok he0
    simp only [convertChains, List.length_map, List.length_append, List.length_drop]
    omega

/-- The graph of the C8 witness: the concrete modules `low.a` and `high.b`
realize the boundary of the coarse chain `[low, m, high]`. -/
def reconstructionWitnessGraph : ImportGraph :=
  { modules := ["low", "low.a", "m", "high", "high.b"], squashed := [],
    edges := [("low.a", "m", [1]), ("m", "high.b", [2])] }

/-- Witness for claim C8 at the coarse chain `[low, m, high]` on
`reconstructionWitnessGraph`: one starting and one ending module, hence
exactly one concrete chain. -/
theorem determine_specific_chains_counts_witness :
    determineSpecificChains [["low", "m", "high"]] reconstructionWitnessGraph =
      Except.ok (convertChains
        ((startingMods reconstructionWitnessGraph "low" "m").map
            (fun sm => sm :: (((["low", "m", "high"] : List String).drop 1).dropLast ++ ["high.b"])) ++
          ((endingMods reconstructionWitnessGraph "high" "m").drop 1).map
            (fun em => "low.a" :: (((["low", "m", "high"] : List String).drop 1).dropLast ++ [em])))
        reconstructionWitnessGraph) ∧
    (convertChains
        ((startingMods reconstructionWitnessGraph "low" "m").map
            (fun sm => sm :: (((["low", "m", "high"] : List String).drop 1).dropLast ++ ["high.b"])) ++
          ((endingMods reconstructionWitnessGraph "high" "m").drop 1).map
            (fun em => "low.a" :: (((["low", "m", "high"] : List String).drop 1).dropLast ++ [em])))
        reconstructionWitnessGraph).length
      = (startingMods reconstructionWitnessGraph "low" "m").length
          + (endingMods reconstructionWitnessGraph "high" "m").length - 1 :=
  determine_specific_chains_counts reconstructionWitnessGraph ["low", "m", "high"]
    "low" "m" "high" "m" "low.a" "high.b" (by decide) (by decide) (by decide)
    (by decide) (by decide) (by decide) (by decide)

/-- The graph of the C9 counterexample: nodes `a`, `b`, `d` with no edges, so
the coarse chain `[a, b, d]` has empty starting- and ending-module sets. -/
def emptySetsGraph : ImportGraph :=
  { modules := ["a", "b", "d"], squashed := [], edges := [] }

/-- Counterexample to claim C9 as stated: on the three-node coarse chain
`[a, b, d]` over `emptySetsGraph` both the starting-module set and the
ending-module set are empty, yet reconstruction does not fail loudly — it
silently returns a successful result with no chains at all. -/
theorem determine_specific_chains_silent_on_empty_sets :
    determineSpecificChains [["a", "b", "d"]] emptySetsGraph = Except.ok [] ∧
    startingMods emptySetsGraph "a" "b" = [] ∧
    endingMods emptySetsGraph "d" "b" = [] := by
  exact ⟨rfl, rfl, rfl⟩

/-- Claim C9 as amended: for a coarse chain of more than two nodes,
reconstruction raises an `IndexError` exactly when the empty set is actually
subscripted — when the ending set is empty but the starting set is not, or
when the starting set is empty and at least two ending modules exist; when the
starting set is empty and at most one ending module exists (in particular when
both sets are empty) it silently emits no chain and reports success. -/
theorem determine_specific_chains_empty_set_behaviour (g : ImportGraph)
    (chain : List String) (sp n1 ep n2 : String)
    (hlen : 2 < chain.length)
    (h0 : pyIndexNat chain 0 = Except.ok sp)
    (h1 : pyIndexNat chain 1 = Except.ok n1)
    (hm1 : pyIndexNeg chain 1 = Except.ok ep)
    (hm2 : pyIndexNeg chain 2 = Except.ok n2) :
    (endingMods g ep n2 = [] → startingMods g sp n1 ≠ [] →
      determineSpecificChains [chain] g = Except.error PyExn.indexError) ∧
    (startingMods g sp n1 = [] → 2 ≤ (endingMods g ep n2).length →
      determineSpecificChains [chain] g = Except.error PyExn.indexError) ∧
    (startingMods g sp n1 = [] → (endingMods g ep n2).length ≤ 1 →
      determineSpecificChains [chain] g = Except.ok []) := by
  have hne : (chain.length == 2) = false := by
    simp only [beq_eq_false_iff_ne, ne_eq]
    omega
  have hloop := specificChainsLoop_long_chain g chain [] [] sp n1 ep n2 hne h0 h1 hm1 hm2
  refine ⟨?_, ?_, ?_⟩
  · intro hE hS
    cases hSl : startingMods g sp n1 with
    | nil => exact absurd hSl hS
    | cons sm rest =>
      unfold determineSpecificChains
      rw [hloop, hE, hSl]
      rfl
  · intro hS hE
    cases hEl : endingMods g ep n2 with
    | nil => rw [hEl] at hE; simp at hE
    | cons em1 etail =>
      cases etail with
      | nil => rw [hEl] at hE; simp at hE
      | cons em2 etail2 =>
        unfold determineSpecificChains
        rw [hloop, hS, hEl]
        rfl
  · intro hS hE
    unfold determineSpecificChains
    rw [hloop, hS]
    cases hEl : endingMods g ep n2 with
    | nil => rfl
    | cons em1 etail =>
      cases etail with
      | nil => rfl
      | cons em2 etail2 =>
        rw [hEl] at hE
        simp at hE

/-- Witness for the amended claim C9: a three-node coarse chain over a graph
where the starting set is empty and the ending set is a singleton silently
produces no chains. -/
def witnessEndOnlyGraph : ImportGraph :=
  { modules := ["a", "a.s", "b", "d", "d.e"], squashed := [],
    edges := [("b", "d.e", [4])] }

/-- Witness for claim C9 (amended): applying the behaviour theorem to the
chain `[a, b, d]` over `witnessEndOnlyGraph`, whose starting set is empty and
whose ending set is the singleton `[d.e]`, yields the silent empty result. -/
theorem determine_specific_chains_empty_set_behaviour_witness :
    determineSpecificChains [["a", "b", "d"]] witnessEndOnlyGraph = Except.ok [] :=
  (determine_specific_chains_empty_set_behaviour witnessEndOnlyGraph ["a", "b", "d"]
      "a" "b" "d" "b" (by decide) (by decide) (by decide) (by decide) (by decide)).2.2
    (by decide) (by decide)

/-! ## Squash soundness (claim C3)

`_squash_package` preserves the boundary-crossing adjacency of the squashed
subtree, but the re-attached edges are created by `add_import` with no line
number: the synthetic node's edges carry an empty line-number set, not the
original one. -/

/-- A well-formed caller graph: no duplicate nodes, and every edge endpoint is
a node. -/
def WellFormed (g : ImportGraph) : Prop :=
  g.modules.Nodup ∧ ∀ e ∈ g.edges, e.1 ∈ g.modules ∧ e.2.1 ∈ g.modules

/-- The graph of the C3 counterexample: the single boundary-crossing edge
`o -> p.a` recorded at line 7. -/
def squashLineGraph : ImportGraph :=
  { modules := ["o", "p", "p.a"], squashed := [], edges := [("o", "p.a", [7])] }

/-- Counterexample to claim C3 as stated: squashing `p` in `squashLineGraph`
re-attaches the boundary edge as `o -> p`, but with the empty line-number set
instead of the original `[7]` — the direction and endpoints survive, the
provenance does not. -/
theorem squash_drops_line_numbers :
    edgeIn (squashPackage "p" squashLineGraph) "o" "p" = true ∧
    getImportDetails (squashPackage "p" squashLineGraph) "o" "p" = [] ∧
    getImportDetails squashLineGraph "o" "p.a" = [7] ∧
    WellFormed squashLineGraph := by
  refine ⟨by decide, by decide, by decide, ?_⟩
  unfold WellFormed
  exact ⟨by decide, by decide⟩

/-- The package members considered by `_squash_package` (source line 131):
the root and all its descendants. -/
def squashMembers (g : ImportGraph) (pkg : String) : List String :=
  pkg :: findDescendants g pkg

/-- The removal-loop result of `_squash_package` (source lines 134-141). -/
def squashFoldRes (g : ImportGraph) (pkg : String) :
    List String × List String × ImportGraph :=
  (squashMembers g pkg).foldl (squashStep pkg) ([], [], g)

theorem squashPackage_as_phases (g : ImportGraph) (pkg : String) :
    squashPackage pkg g =
      (squashFoldRes g pkg).2.1.foldl (fun h m => addImport h pkg m none)
        ((squashFoldRes g pkg).1.foldl (fun h m => addImport h m pkg none)
          (addModule (squashFoldRes g pkg).2.2 pkg true)) := rfl

/-- The graph `g` with the nodes of `rem`, and every edge touching them,
filtered away (a proof-side description of iterated `remove_module`). -/
def filterGraph (g : ImportGraph) (rem : List String) : ImportGraph :=
  { modules := g.modules.filter (fun x => !rem.contains x),
    squashed := g.squashed.filter (fun x => !rem.contains x),
    edges := g.edges.filter (fun e => !rem.contains e.1 && !rem.contains e.2.1) }

theorem string_data_append (a b : String) : (a ++ b).data = a.data ++ b.data := rfl

theorem not_strStartsWith_self_dot (pkg : String) :
    strStartsWith pkg (pkg ++ ".") = false := by
  by_contra h
  rw [Bool.not_eq_false] at h
  unfold strStartsWith at h
  rw [string_data_append, List.isPrefixOf_iff_prefix] at h
  have hlen := h.length_le
  simp at hlen

theorem filterGraph_nil (g : ImportGraph) : filterGraph g [] = g := by
  cases g with
  | mk ms ss es => simp [filterGraph]

theorem contains_eq_decide_mem (l : List String) (x : String) :
    l.contains x = decide (x ∈ l) := List.elem_eq_mem x l

theorem not_contains_append_singleton (rem : List String) (m x : String) :
    (!(rem ++ [m]).contains x) = ((x != m) && !rem.contains x) := by
  rw [contains_eq_decide_mem, contains_eq_decide_mem]
  by_cases hx : x = m
  · simp [hx, List.mem_append]
  · by_cases hr : x ∈ rem
    · simp [hx, hr, List.mem_append]
    · simp [hx, hr, List.mem_append]

theorem bool_and_interchange (a b c d : Bool) :
    ((a && b) && (c && d)) = ((a && c) && (b && d)) := by
  cases a <;> cases b <;> cases c <;> cases d <;> rfl

theorem removeModule_filterGraph (g : ImportGraph) (rem : List String) (m : String) :
    removeModule (filterGraph g rem) m = filterGraph g (rem ++ [m]) := by
  unfold removeModule filterGraph
  simp only [ImportGraph.mk.injEq]
  refine ⟨?_, ?_, ?_⟩
  · rw [List.filter_filter]
    apply List.filter_congr
    intro x _
    rw [not_contains_append_singleton]
  · rw [List.filter_filter]
    apply List.filter_congr
    intro x _
    rw [not_contains_append_singleton]
  · rw [List.filter_filter]
    apply List.filter_congr
    intro e _
    rw [not_contains_append_singleton, not_contains_append_singleton]
    cases h1 : e.1 != m <;> cases h2 : e.2.1 != m <;>
      cases h3 : rem.contains e.1 <;> cases h4 : rem.contains e.2.1 <;> rfl

theorem edgeIn_iff (g : ImportGraph) (a b : String) :
    edgeIn g a b = true ↔ ∃ ln, (a, b, ln) ∈ g.edges := by
  unfold edgeIn
  rw [List.any_eq_true]
  constructor
  · rintro ⟨e, he, hpred⟩
    rw [Bool.and_eq_true, beq_iff_eq, beq_iff_eq] at hpred
    exact ⟨e.2.2, by rw [← hpred.1, ← hpred.2]; exact he⟩
  · rintro ⟨ln, hln⟩
    exact ⟨(a, b, ln), hln, by simp⟩

theorem edgeIn_filterGraph (g : ImportGraph) (rem : List String) (a b : String) :
    edgeIn (filterGraph g rem) a b = true ↔
      edgeIn g a b = true ∧ a ∉ rem ∧ b ∉ rem := by
  rw [edgeIn_iff, edgeIn_iff]
  unfold filterGraph
  constructor
  · rintro ⟨ln, hln⟩
    rw [List.mem_filter] at hln
    have hpred := hln.2
    rw [Bool.and_eq_true] at hpred
    rw [contains_eq_decide_mem, contains_eq_decide_mem] at hpred
    simp only [Bool.not_eq_eq_eq_not, Bool.not_true, decide_eq_false_iff_not] at hpred
    exact ⟨⟨ln, hln.1⟩, hpred.1, hpred.2⟩
  · rintro ⟨⟨ln, hln⟩, ha, hb⟩
    refine ⟨ln, ?_⟩
    rw [List.mem_filter]
    refine ⟨hln, ?_⟩
    rw [contains_eq_decide_mem, contains_eq_decide_mem]
    simp [ha, hb]

theorem mem_findModulesDirectlyImportedBy (g : ImportGraph) (m x : String) :
    x ∈ findModulesDirectlyImportedBy g m ↔ edgeIn g m x = true := by
  unfold findModulesDirectlyImportedBy
  rw [List.mem_dedup, List.mem_map, edgeIn_iff]
  constructor
  · rintro ⟨e, he, hx⟩
    rw [List.mem_filter, beq_iff_eq] at he
    exact ⟨e.2.2, by rw [← he.2, ← hx]; exact he.1⟩
  · rintro ⟨ln, hln⟩
    exact ⟨(m, x, ln), by rw [List.mem_filter]; exact ⟨hln, by simp⟩, rfl⟩

theorem mem_findModulesThatDirectlyImport (g : ImportGraph) (m x : String) :
    x ∈ findModulesThatDirectlyImport g m ↔ edgeIn g x m = true := by
  unfold findModulesThatDirectlyImport
  rw [List.mem_dedup, List.mem_map, edgeIn_iff]
  constructor
  · rintro ⟨e, he, hx⟩
    rw [List.mem_filter, beq_iff_eq] at he
    refine ⟨e.2.2, ?_⟩
    have : e = (x, m, e.2.2) := by
      rw [← hx, ← he.2]
    rw [← this]
    exact he.1
  · rintro ⟨ln, hln⟩
    exact ⟨(x, m, ln), by rw [List.mem_filter]; exact ⟨hln, by simp⟩, rfl⟩

theorem mem_setAdd (s : List String) (m x : String) :
    x ∈ setAdd s m ↔ x ∈ s ∨ x = m := by
  unfold setAdd
  by_cases hm : m ∈ s
  · simp only [hm, if_true]
    constructor
    · exact Or.inl
    · rintro (h | h)
      · exact h
      · rw [h]; exact hm
  · simp [hm]

theorem setAdd_nodup (s : List String) (m : String) (h : s.Nodup) :
    (setAdd s m).Nodup := by
  unfold setAdd
  by_cases hm : m ∈ s
  · simp [hm, h]
  · simp [hm, List.nodup_append, h]

theorem mem_collectBoundary (pkg : String) :
    ∀ (l s : List String) (x : String),
      x ∈ collectBoundary pkg l s ↔
        x ∈ s ∨ (x ∈ l ∧ isDescendantOf x pkg = false) := by
  intro l
  induction l with
  | nil => intro s x; simp [collectBoundary]
  | cons m rest ih =>
    intro s x
    have hstep : collectBoundary pkg (m :: rest) s =
        collectBoundary pkg rest (if isDescendantOf m pkg then s else setAdd s m) := rfl
    rw [hstep, ih]
    by_cases hd : isDescendantOf m pkg
    · simp only [hd, if_true]
      constructor
      · rintro (h | h)
        · exact Or.inl h
        · exact Or.inr ⟨List.mem_cons_of_mem m h.1, h.2⟩
      · rintro (h | ⟨hmem, hdesc⟩)
        · exact Or.inl h
        · rcases List.mem_cons.mp hmem with heq | htail
          · rw [heq] at hdesc; rw [hd] at hdesc; cases hdesc
          · exact Or.inr ⟨htail, hdesc⟩
    · rw [Bool.not_eq_true] at hd
      simp only [hd, Bool.false_eq_true, if_false, mem_setAdd]
      constructor
      · rintro ((h | h) | h)
        · exact Or.inl h
        · rw [h]; exact Or.inr ⟨List.mem_cons_self m rest, hd⟩
        · exact Or.inr ⟨List.mem_cons_of_mem m h.1, h.2⟩
      · rintro (h | ⟨hmem, hdesc⟩)
        · exact Or.inl (Or.inl h)
        · rcases List.mem_cons.mp hmem with heq | htail
          · exact Or.inl (Or.inr heq)
          · exact Or.inr ⟨htail, hdesc⟩

theorem collectBoundary_nodup (pkg : String) :
    ∀ (l s : List String), s.Nodup → (collectBoundary pkg l s).Nodup := by
  intro l
  induction l with
  | nil => intro s hs; exact hs
  | cons m rest ih =>
    intro s hs
    have hstep : collectBoundary pkg (m :: rest) s =
        collectBoundary pkg rest (if isDescendantOf m pkg then s else setAdd s m) := rfl
    rw [hstep]
    apply ih
    by_cases hd : isDescendantOf m pkg
    · simp [hd, hs]
    · rw [Bool.not_eq_true] at hd
      simp only [hd, Bool.false_eq_true, if_false]
      exact setAdd_nodup s m hs

theorem squashFold_spec (g : ImportGraph) (pkg : String) :
    ∀ (ms rem accI accB : List String),
      (∀ x ∈ ms, isDescendantOf x pkg = true) →
      (∀ x ∈ rem, isDescendantOf x pkg = true) →
      (∀ x ∈ ms, x ∉ rem) →
      ms.Nodup →
      (ms.foldl (squashStep pkg) (accI, accB, filterGraph g rem)).2.2
          = filterGraph g (rem ++ ms) ∧
      (∀ x, x ∈ (ms.foldl (squashStep pkg) (accI, accB, filterGraph g rem)).1 ↔
        (x ∈ accI ∨ (isDescendantOf x pkg = false ∧
          ∃ p ∈ ms, edgeIn g x p = true))) ∧
      (∀ x, x ∈ (ms.foldl (squashStep pkg) (accI, accB, filterGraph g rem)).2.1 ↔
        (x ∈ accB ∨ (isDescendantOf x pkg = false ∧
          ∃ p ∈ ms, edgeIn g p x = true))) := by
  intro ms
  induction ms with
  | nil =>
    intro rem accI accB _ _ _ _
    refine ⟨by simp, ?_, ?_⟩ <;> intro x <;> simp
  | cons pm rest ih =>
    intro rem accI accB hdesc hrem hdisj hnd
    have hpmdesc : isDescendantOf pm pkg = true := hdesc pm (List.mem_cons_self pm rest)
    have hpmrem : pm ∉ rem := hdisj pm (List.mem_cons_self pm rest)
    have hstep : squashStep pkg (accI, accB, filterGraph g rem) pm
        = (collectBoundary pkg (findModulesThatDirectlyImport (filterGraph g rem) pm) accI,
           collectBoundary pkg (findModulesDirectlyImportedBy (filterGraph g rem) pm) accB,
           filterGraph g (rem ++ [pm])) := by
      unfold squashStep
      rw [removeModule_filterGraph]
    have h1 : ∀ x ∈ rest, isDescendantOf x pkg = true :=
      fun x hx => hdesc x (List.mem_cons_of_mem pm hx)
    have h2 : ∀ x ∈ rem ++ [pm], isDescendantOf x pkg = true := by
      intro x hx
      rcases List.mem_append.mp hx with h | h
      · exact hrem x h
      · rw [List.mem_singleton.mp h]; exact hpmdesc
    have h3 : ∀ x ∈ rest, x ∉ rem ++ [pm] := by
      intro x hx
      rw [List.mem_append, List.mem_singleton]
      rintro (h | h)
      · exact hdisj x (List.mem_cons_of_mem pm hx) h
      · rw [h] at hx
        exact (List.nodup_cons.mp hnd).1 hx
    have h4 : rest.Nodup := (List.nodup_cons.mp hnd).2
    have hih := ih (rem ++ [pm])
      (collectBoundary pkg (findModulesThatDirectlyImport (filterGraph g rem) pm) accI)
      (collectBoundary pkg (findModulesDirectlyImportedBy (filterGraph g rem) pm) accB)
      h1 h2 h3 h4
    rw [List.foldl_cons, hstep]
    have hassoc : (rem ++ [pm]) ++ rest = rem ++ (pm :: rest) := by
      rw [List.append_assoc, List.singleton_append]
    refine ⟨by rw [hih.1, hassoc], ?_, ?_⟩
    · intro x
      rw [(hih.2.1 x), mem_collectBoundary, mem_findModulesThatDirectlyImport,
        edgeIn_filterGraph]
      constructor
      · rintro ((h | h) | h)
        · exact Or.inl h
        · exact Or.inr ⟨h.2, pm, List.mem_cons_self pm rest, h.1.1⟩
        · obtain ⟨hdx, p, hp, hedge⟩ := h
          exact Or.inr ⟨hdx, p, List.mem_cons_of_mem pm hp, hedge⟩
      · rintro (h | ⟨hdx, p, hp, hedge⟩)
        · exact Or.inl (Or.inl h)
        · have hxrem : x ∉ rem := by
            intro hc
            rw [hrem x hc] at hdx
            cases hdx
          rcases List.mem_cons.mp hp with heq | htail
          · exact Or.inl (Or.inr ⟨⟨by rw [← heq]; exact hedge, hxrem, hpmrem⟩, hdx⟩)
          · exact Or.inr ⟨hdx, p, htail, hedge⟩
    · intro x
      rw [(hih.2.2 x), mem_collectBoundary, mem_findModulesDirectlyImportedBy,
        edgeIn_filterGraph]
      constructor
      · rintro ((h | h) | h)
        · exact Or.inl h
        · exact Or.inr ⟨h.2, pm, List.mem_cons_self pm rest, h.1.1⟩
        · obtain ⟨hdx, p, hp, hedge⟩ := h
          exact Or.inr ⟨hdx, p, List.mem_cons_of_mem pm hp, hedge⟩
      · rintro (h | ⟨hdx, p, hp, hedge⟩)
        · exact Or.inl (Or.inl h)
        · have hxrem : x ∉ rem := by
            intro hc
            rw [hrem x hc] at hdx
            cases hdx
          rcases List.mem_cons.mp hp with heq | htail
          · exact Or.inl (Or.inr ⟨⟨by rw [← heq]; exact hedge, hpmrem, hxrem⟩, hdx⟩)
          · exact Or.inr ⟨hdx, p, htail, hedge⟩

theorem squashFold_nodup (pkg : String) :
    ∀ (ms : List String) (acc : List String × List String × ImportGraph),
      acc.1.Nodup → acc.2.1.Nodup →
      (ms.foldl (squashStep pkg) acc).1.Nodup ∧
      (ms.foldl (squashStep pkg) acc).2.1.Nodup := by
  intro ms
  induction ms with
  | nil => intro acc h1 h2; exact ⟨h1, h2⟩
  | cons pm rest ih =>
    intro acc h1 h2
    rw [List.foldl_cons]
    exact ih (squashStep pkg acc pm)
      (collectBoundary_nodup pkg _ _ h1) (collectBoundary_nodup pkg _ _ h2)

theorem mem_filterGraph_edges (g : ImportGraph) (rem : List String)
    (e : String × String × List Nat) :
    e ∈ (filterGraph g rem).edges ↔ e ∈ g.edges ∧ e.1 ∉ rem ∧ e.2.1 ∉ rem := by
  unfold filterGraph
  rw [List.mem_filter]
  rw [contains_eq_decide_mem, contains_eq_decide_mem]
  simp

theorem squashMembers_desc (g : ImportGraph) (pkg : String) :
    ∀ x ∈ squashMembers g pkg, isDescendantOf x pkg = true := by
  intro x hx
  rcases List.mem_cons.mp hx with h | h
  · rw [h]; simp [isDescendantOf]
  · unfold findDescendants at h
    rw [List.mem_filter] at h
    unfold isDescendantOf
    rw [h.2]
    simp

theorem squashMembers_nodup (g : ImportGraph) (pkg : String)
    (hnd : g.modules.Nodup) : (squashMembers g pkg).Nodup := by
  unfold squashMembers
  rw [List.nodup_cons]
  refine ⟨?_, hnd.filter _⟩
  intro hc
  unfold findDescendants at hc
  rw [List.mem_filter] at hc
  have := hc.2
  rw [not_strStartsWith_self_dot] at this
  cases this

theorem mem_squashMembers_of_desc (g : ImportGraph) (pkg p : String)
    (hdesc : isDescendantOf p pkg = true) (hmod : p ∈ g.modules) :
    p ∈ squashMembers g pkg := by
  unfold isDescendantOf at hdesc
  rw [Bool.or_eq_true, beq_iff_eq] at hdesc
  rcases hdesc with heq | hpre
  · rw [heq]; exact List.mem_cons_self _ _
  · refine List.mem_cons_of_mem _ ?_
    unfold findDescendants
    rw [List.mem_filter]
    exact ⟨hmod, hpre⟩

theorem foldAddLeft_edges (pkg : String) :
    ∀ (l : List String) (h : ImportGraph),
      (∀ m ∈ l, edgeIn h m pkg = false) → l.Nodup →
      (l.foldl (fun h2 m => addImport h2 m pkg none) h).edges
        = h.edges ++ l.map (fun m => (m, pkg, ([] : List Nat))) := by
  intro l
  induction l with
  | nil => intro h _ _; simp
  | cons m rest ih =>
    intro h hfalse hnd
    have hm : edgeIn h m pkg = false := hfalse m (List.mem_cons_self m rest)
    have hadd : (addImport h m pkg none).edges = h.edges ++ [(m, pkg, [])] := by
      simp [addImport, hm]
    rw [List.foldl_cons]
    rw [ih (addImport h m pkg none) ?_ (List.nodup_cons.mp hnd).2]
    · rw [hadd]
      simp [List.append_assoc]
    · intro m2 hm2
      have hne : m ≠ m2 := by
        intro hc
        exact (List.nodup_cons.mp hnd).1 (hc ▸ hm2)
      unfold edgeIn
      rw [hadd, List.any_append]
      have h1 : h.edges.any (fun e => e.1 == m2 && e.2.1 == pkg) = false :=
        hfalse m2 (List.mem_cons_of_mem m hm2)
      rw [h1]
      simp [hne]

theorem foldAddRight_edges (pkg : String) :
    ∀ (l : List String) (h : ImportGraph),
      (∀ m ∈ l, edgeIn h pkg m = false) → l.Nodup →
      (l.foldl (fun h2 m => addImport h2 pkg m none) h).edges
        = h.edges ++ l.map (fun m => (pkg, m, ([] : List Nat))) := by
  intro l
  induction l with
  | nil => intro h _ _; simp
  | cons m rest ih =>
    intro h hfalse hnd
    have hm : edgeIn h pkg m = false := hfalse m (List.mem_cons_self m rest)
    have hadd : (addImport h pkg m none).edges = h.edges ++ [(pkg, m, [])] := by
      simp [addImport, hm]
    rw [List.foldl_cons]
    rw [ih (addImport h pkg m none) ?_ (List.nodup_cons.mp hnd).2]
    · rw [hadd]
      simp [List.append_assoc]
    · intro m2 hm2
      have hne : m ≠ m2 := by
        intro hc
        exact (List.nodup_cons.mp hnd).1 (hc ▸ hm2)
      unfold edgeIn
      rw [hadd, List.any_append]
      have h1 : h.edges.any (fun e => e.1 == pkg && e.2.1 == m2) = false :=
        hfalse m2 (List.mem_cons_of_mem m hm2)
      rw [h1]
      simp [hne]

/-- The amended squash-soundness property: squashing preserves the set of
boundary-crossing edges up to collapsing onto the synthetic node — for every
module outside the subtree, an edge to (from) the synthetic node exists after
the squash exactly when some subtree member had an edge from (to) that module
before, no edge to or from the synthetic node other than these exists, and no
synthetic-node edge touches a subtree member — but every edge incident to the
synthetic node carries the empty line-number set, not the original one. -/
def SquashBoundarySpec (g : ImportGraph) (pkg : String) : Prop :=
  (∀ o, isDescendantOf o pkg = false →
    (edgeIn (squashPackage pkg g) o pkg = true ↔
      ∃ p, isDescendantOf p pkg = true ∧ edgeIn g o p = true)) ∧
  (∀ o, isDescendantOf o pkg = false →
    (edgeIn (squashPackage pkg g) pkg o = true ↔
      ∃ p, isDescendantOf p pkg = true ∧ edgeIn g p o = true)) ∧
  (∀ e ∈ (squashPackage pkg g).edges,
    e.1 = pkg ∨ e.2.1 = pkg → e.2.2 = ([] : List Nat)) ∧
  (∀ e ∈ (squashPackage pkg g).edges,
    (e.1 = pkg → isDescendantOf e.2.1 pkg = false) ∧
    (e.2.1 = pkg → isDescendantOf e.1 pkg = false))

/-- Claim C3 (amended): for every well-formed graph, `_squash_package`
preserves the boundary-crossing edges exactly in endpoints and direction (up
to collapsing the subtree onto the synthetic node, inventing and dropping
nothing incident to it), but the synthetic edges carry empty line-number sets
rather than the original ones. -/
theorem squashPackage_boundary (g : ImportGraph) (pkg : String)
    (hwf : WellFormed g) : SquashBoundarySpec g pkg := by
  have hdescM := squashMembers_desc g pkg
  have hndM := squashMembers_nodup g pkg hwf.1
  have hfold := squashFold_spec g pkg (squashMembers g pkg) [] [] []
    hdescM (fun x hx => absurd hx (List.not_mem_nil x))
    (fun x _ => List.not_mem_nil x) hndM
  rw [filterGraph_nil] at hfold
  have hI : ∀ x, x ∈ (squashFoldRes g pkg).1 ↔
      (isDescendantOf x pkg = false ∧
        ∃ p ∈ squashMembers g pkg, edgeIn g x p = true) := by
    intro x
    have := hfold.2.1 x
    simpa [squashFoldRes] using this
  have hB : ∀ x, x ∈ (squashFoldRes g pkg).2.1 ↔
      (isDescendantOf x pkg = false ∧
        ∃ p ∈ squashMembers g pkg, edgeIn g p x = true) := by
    intro x
    have := hfold.2.2 x
    simpa [squashFoldRes] using this
  have hGmid : (squashFoldRes g pkg).2.2 = filterGraph g (squashMembers g pkg) := by
    have := hfold.1
    simpa [squashFoldRes] using this
  have hnd2 := squashFold_nodup pkg (squashMembers g pkg) ([], [], g)
    List.nodup_nil List.nodup_nil
  have hIno : (squashFoldRes g pkg).1.Nodup := hnd2.1
  have hBno : (squashFoldRes g pkg).2.1.Nodup := hnd2.2
  have hpkgMem : pkg ∈ squashMembers g pkg := List.mem_cons_self _ _
  have hdescpkg : isDescendantOf pkg pkg = true := by simp [isDescendantOf]
  have hNoPkgEdge : ∀ a b : String, a = pkg ∨ b = pkg →
      edgeIn (filterGraph g (squashMembers g pkg)) a b = false := by
    intro a b hab
    rw [← Bool.not_eq_true]
    intro hc
    have hmem := (edgeIn_filterGraph g _ a b).mp hc
    rcases hab with h | h
    · exact hmem.2.1 (h ▸ hpkgMem)
    · exact hmem.2.2 (h ▸ hpkgMem)
  have hpre1 : ∀ m ∈ (squashFoldRes g pkg).1,
      edgeIn (addModule (squashFoldRes g pkg).2.2 pkg true) m pkg = false := by
    intro m _
    have heq : edgeIn (addModule (squashFoldRes g pkg).2.2 pkg true) m pkg
        = edgeIn (filterGraph g (squashMembers g pkg)) m pkg := by
      unfold edgeIn
      rw [show (addModule (squashFoldRes g pkg).2.2 pkg true).edges
        = (squashFoldRes g pkg).2.2.edges from rfl, hGmid]
    rw [heq]
    exact hNoPkgEdge m pkg (Or.inr rfl)
  have h3edges : ((squashFoldRes g pkg).1.foldl (fun h2 m => addImport h2 m pkg none)
        (addModule (squashFoldRes g pkg).2.2 pkg true)).edges
      = (filterGraph g (squashMembers g pkg)).edges
        ++ (squashFoldRes g pkg).1.map (fun m => (m, pkg, ([] : List Nat))) := by
    rw [foldAddLeft_edges pkg _ _ hpre1 hIno]
    rw [show (addModule (squashFoldRes g pkg).2.2 pkg true).edges
      = (squashFoldRes g pkg).2.2.edges from rfl, hGmid]
  have hpre2 : ∀ m ∈ (squashFoldRes g pkg).2.1,
      edgeIn ((squashFoldRes g pkg).1.foldl (fun h2 m => addImport h2 m pkg none)
        (addModule (squashFoldRes g pkg).2.2 pkg true)) pkg m = false := by
    intro m _
    unfold edgeIn
    rw [h3edges, List.any_append]
    have hpart1 : (filterGraph g (squashMembers g pkg)).edges.any
        (fun e => e.1 == pkg && e.2.1 == m) = false :=
      hNoPkgEdge pkg m (Or.inl rfl)
    rw [hpart1, Bool.false_or, List.any_eq_false]
    intro e hemem
    rw [List.mem_map] at hemem
    obtain ⟨m2, hm2, heq⟩ := hemem
    subst heq
    have hdm2 : isDescendantOf m2 pkg = false := ((hI m2).mp hm2).1
    have hne : m2 ≠ pkg := by
      intro hc
      rw [hc, hdescpkg] at hdm2
      cases hdm2
    simp [hne]
  have hOutEdges : (squashPackage pkg g).edges
      = (filterGraph g (squashMembers g pkg)).edges
        ++ (squashFoldRes g pkg).1.map (fun m => (m, pkg, ([] : List Nat)))
        ++ (squashFoldRes g pkg).2.1.map (fun m => (pkg, m, ([] : List Nat))) := by
    rw [squashPackage_as_phases]
    rw [foldAddRight_edges pkg _ _ hpre2 hBno, h3edges]
  refine ⟨?_, ?_, ?_, ?_⟩
  · intro o hdo
    rw [edgeIn_iff]
    constructor
    · rintro ⟨ln, hln⟩
      rw [hOutEdges] at hln
      rcases List.mem_append.mp hln with hln1 | hln2
      · rcases List.mem_append.mp hln1 with hfil | hImap
        · have hmem := (mem_filterGraph_edges g _ _).mp hfil
          exact absurd hpkgMem hmem.2.2
        · rw [List.mem_map] at hImap
          obtain ⟨m2, hm2, heq⟩ := hImap
          have hmo : m2 = o := congrArg (fun e => e.1) heq
          rw [hmo] at hm2
          obtain ⟨_, p, hp, hedge⟩ := (hI o).mp hm2
          exact ⟨p, hdescM p hp, hedge⟩
      · rw [List.mem_map] at hln2
        obtain ⟨m2, _, heq⟩ := hln2
        have hpo : pkg = o := congrArg (fun e => e.1) heq
        rw [← hpo, hdescpkg] at hdo
        cases hdo
    · rintro ⟨p, hdp, hedge⟩
      have hpmod : p ∈ g.modules := by
        obtain ⟨ln, hln⟩ := (edgeIn_iff g o p).mp hedge
        exact (hwf.2 _ hln).2
      have hpM := mem_squashMembers_of_desc g pkg p hdp hpmod
      have hoI : o ∈ (squashFoldRes g pkg).1 := (hI o).mpr ⟨hdo, p, hpM, hedge⟩
      refine ⟨[], ?_⟩
      rw [hOutEdges]
      refine List.mem_append.mpr (Or.inl (List.mem_append.mpr (Or.inr ?_)))
      rw [List.mem_map]
      exact ⟨o, hoI, rfl⟩
  · intro o hdo
    rw [edgeIn_iff]
    constructor
    · rintro ⟨ln, hln⟩
      rw [hOutEdges] at hln
      rcases List.mem_append.mp hln with hln1 | hln2
      · rcases List.mem_append.mp hln1 with hfil | hImap
        · have hmem := (mem_filterGraph_edges g _ _).mp hfil
          exact absurd hpkgMem hmem.2.1
        · rw [List.mem_map] at hImap
          obtain ⟨m2, hm2, heq⟩ := hImap
          have hmo : m2 = pkg := congrArg (fun e => e.1) heq
          have hdm2 : isDescendantOf m2 pkg = false := ((hI m2).mp hm2).1
          rw [hmo, hdescpkg] at hdm2
          cases hdm2
      · rw [List.mem_map] at hln2
        obtain ⟨m2, hm2, heq⟩ := hln2
        have hmo : m2 = o := congrArg (fun e => e.2.1) heq
        rw [hmo] at hm2
        obtain ⟨_, p, hp, hedge⟩ := (hB o).mp hm2
        exact ⟨p, hdescM p hp, hedge⟩
    · rintro ⟨p, hdp, hedge⟩
      have hpmod : p ∈ g.modules := by
        obtain ⟨ln, hln⟩ := (edgeIn_iff g p o).mp hedge
        exact (hwf.2 _ hln).1
      have hpM := mem_squashMembers_of_desc g pkg p hdp hpmod
      have hoB : o ∈ (squashFoldRes g pkg).2.1 := (hB o).mpr ⟨hdo, p, hpM, hedge⟩
      refine ⟨[], ?_⟩
      rw [hOutEdges]
      refine List.mem_append.mpr (Or.inr ?_)
      rw [List.mem_map]
      exact ⟨o, hoB, rfl⟩
  · intro e he hpe
    rw [hOutEdges] at he
    rcases List.mem_append.mp he with he1 | he2
    · rcases List.mem_append.mp he1 with hfil | hImap
      · have hmem := (mem_filterGraph_edges g _ _).mp hfil
        rcases hpe with h | h
        · exact absurd (h ▸ hpkgMem) hmem.2.1
        · exact absurd (h ▸ hpkgMem) hmem.2.2
      · rw [List.mem_map] at hImap
        obtain ⟨m2, _, heq⟩ := hImap
        subst heq
        rfl
    · rw [List.mem_map] at he2
      obtain ⟨m2, _, heq⟩ := he2
      subst heq
      rfl
  · intro e he
    rw [hOutEdges] at he
    rcases List.mem_append.mp he with he1 | he2
    · rcases List.mem_append.mp he1 with hfil | hImap
      · have hmem := (mem_filterGraph_edges g _ _).mp hfil
        constructor
        · intro h
          exact absurd (h ▸ hpkgMem) hmem.2.1
        · intro h
          exact absurd (h ▸ hpkgMem) hmem.2.2
      · rw [List.mem_map] at hImap
        obtain ⟨m2, hm2, heq⟩ := hImap
        have hdm2 : isDescendantOf m2 pkg = false := ((hI m2).mp hm2).1
        subst heq
        constructor
        · intro h
          have h2 : m2 = pkg := h
          rw [h2, hdescpkg] at hdm2
          cases hdm2
        · intro _
          exact hdm2
    · rw [List.mem_map] at he2
      obtain ⟨m2, hm2, heq⟩ := he2
      have hdm2 : isDescendantOf m2 pkg = false := ((hB m2).mp hm2).1
      subst heq
      constructor
      · intro _
        exact hdm2
      · intro h
        have h2 : m2 = pkg := h
        rw [h2, hdescpkg] at hdm2
        cases hdm2

/-- The graph of the C3 witness: two boundary edges in opposite directions
between the outside module `z` and the subtree member `q.a`. -/
def squashWitnessGraph : ImportGraph :=
  { modules := ["q", "q.a", "z"], squashed := [],
    edges := [("z", "q.a", [3]), ("q.a", "z", [4])] }

/-- Witness for claim C3 (amended): the boundary specification holds for
squashing `q` in the concrete well-formed graph `squashWitnessGraph`. -/
theorem squashPackage_boundary_witness : SquashBoundarySpec squashWitnessGraph "q" :=
  squashPackage_boundary squashWitnessGraph "q" (by unfold WellFormed; exact ⟨by decide, by decide⟩)

end ImportLinter
